import Mathlib

/-!
Verification of the spaced-repetition scheduling engine of the study_buddy
backend.  The embedded code lives in `app/core/spaced_repetition.py`
(`SpacedRepetitionScheduler`), `app/models/repository.py`
(`record_flashcard_review`, `get_flashcards_due_for_review`) and
`app/core/learning_manager.py` (`get_spaced_repetition_schedule`,
`record_activity`).

Modelling conventions:
* Python `int` is `Int`; Python `float` arithmetic is modelled as exact
  rational arithmetic over `ℚ`.
* Timestamps (`datetime.datetime`) are integer seconds; `timedelta(days = n)`
  is `n * secondsPerDay`; `timedelta.days` floors towards minus infinity,
  which for a positive divisor is `Int.ediv`.
* The wall clock `datetime.datetime.utcnow()` is passed in explicitly as a
  parameter `now` (the spec requires the clock to be injectable).
* Database rows are Lean structures; the row shape of `flashcard_reviews`
  follows the DDL in `create_flashcard_study_plan_db.py` (the column
  `next_review_at` is nullable, hence `Option Int`).
-/

namespace StudyBuddy

/-- Seconds in one day. -/
def secondsPerDay : Int := 86400

/-- `timedelta.days` of a difference of two timestamps (floor division). -/
def timedeltaDays (delta : Int) : Int := Int.ediv delta secondsPerDay

/-- `t.replace(hour=0, minute=0, second=0, microsecond=0)`: truncate a
timestamp to the midnight that starts its day. -/
def midnightOf (t : Int) : Int := Int.ediv t secondsPerDay * secondsPerDay

/-- The dictionary returned by
`SpacedRepetitionScheduler.calculate_next_review`. -/
structure SchedResult where
  nextInterval : Int
  nextReviewDate : Int
  easeFactor : ℚ
  repetitions : Int
deriving DecidableEq

/-- `SpacedRepetitionScheduler.calculate_next_review`
(`app/core/spaced_repetition.py` lines 13-63): ease factor from confidence,
repetition reset on confidence ≤ 2, tiered intervals 1/3/7 days and the SM-2
style `ceil(previous_interval * ease_factor)` capped at 180 days afterwards. -/
def calculateNextReview (confidence previousInterval repetitions : Int)
    (now : Int) : SchedResult :=
  let easeFactor : ℚ := 13/10 + ((confidence : ℚ) - 1) * (3/10)
  let reps : Int := if confidence ≤ 2 then 0 else repetitions + 1
  let nextInterval : Int :=
    if reps = 0 then 1
    else if reps = 1 then 3
    else if reps = 2 then 7
    else min (Int.ceil ((previousInterval : ℚ) * easeFactor)) 180
  { nextInterval := nextInterval
    nextReviewDate := now + nextInterval * secondsPerDay
    easeFactor := easeFactor
    repetitions := reps }

/-- One row of the `flashcard_reviews` table. -/
structure FlashcardReviewRecord where
  id : String
  flashcard_id : String
  user_id : String
  confidence : Int
  reviewed_at : Int
  next_review_at : Option Int
deriving DecidableEq

/-- `repository.record_flashcard_review` (`app/models/repository.py`
lines 203-226): looks the confidence up in a fixed days table with default 3,
schedules `now + days`, and adds exactly one new row to the database.  The
returned pair is (the row handed back to the caller, the rows written).
The function performs no validation and never raises. -/
def recordFlashcardReview (now : Int) (newId flashcard_id user_id : String)
    (confidence : Int) : FlashcardReviewRecord × List FlashcardReviewRecord :=
  let daysToNextReview : Int :=
    (([(1, 1), (2, 3), (3, 7), (4, 14), (5, 30)] : List (Int × Int)).lookup
      confidence).getD 3
  let nextReview := now + daysToNextReview * secondsPerDay
  let review : FlashcardReviewRecord :=
    { id := newId
      flashcard_id := flashcard_id
      user_id := user_id
      confidence := confidence
      reviewed_at := now
      next_review_at := some nextReview }
  (review, [review])

/-- Lines 91-101 of
`SpacedRepetitionScheduler.update_flashcard_schedule`: derive
`(previous_interval, repetitions)` from the prior reviews of the card, which
the query returns ordered by `reviewed_at` descending (most recent first). -/
def deriveReviewParams (previousReviews : List FlashcardReviewRecord)
    (now : Int) : Int × Int :=
  match previousReviews with
  | [] => (0, 0)
  | last :: rest =>
      let daysSince := timedeltaDays (now - last.reviewed_at)
      let previousInterval := max daysSince 1
      let repetitions : Int :=
        ((last :: rest).filter (fun r => 3 ≤ r.confidence)).length
      (previousInterval, repetitions)

/-- Line 130 of `update_flashcard_schedule`: the normalized confidence
`(confidence - 1) / 4.0` reported to `update_topic_progress`. -/
def updateScheduleNormalizedConfidence (confidence : Int) : ℚ :=
  ((confidence : ℚ) - 1) / 4

/-- Line 260 of `LearningManager.record_activity`: for a flashcard activity
the confidence reported to `update_topic_progress` is `confidence / 5`. -/
def recordActivityFlashcardConfidence (confidence : Int) : ℚ :=
  (confidence : ℚ) / 5

/-- The parameter names of `repository.record_flashcard_review`
(`app/models/repository.py` line 203). -/
def recordFlashcardReviewParams : List String :=
  ["db", "flashcard_id", "user_id", "confidence"]

/-- The keyword arguments of the call
`repository.record_flashcard_review(db, flashcard_id=..., user_id=...,
confidence=..., next_review_at=schedule["next_review_date"])` in
`update_flashcard_schedule` (`app/core/spaced_repetition.py` lines 111-117);
`db` is passed positionally. -/
def updateScheduleRecordCallKeywords : List String :=
  ["flashcard_id", "user_id", "confidence", "next_review_at"]

/-- A Python call is well formed only if every keyword argument names a
declared parameter of the callee (otherwise the call raises `TypeError`
before the function body runs). -/
def keywordsAccepted (params keywords : List String) : Bool :=
  keywords.all (fun k => params.contains k)

/-! ### `get_due_flashcards` (`app/core/spaced_repetition.py` lines 150-206) -/

/-- One row of the `flashcards` table (only the field the due query keys on;
the JSON content is opaque to the scheduling logic). -/
structure FlashcardRow where
  id : String
deriving DecidableEq

/-- One element of the list returned by `get_due_flashcards`. -/
structure DueFlashcardEntry where
  id : String
  last_review : Int
  due_date : Option Int
  last_confidence : Int
deriving DecidableEq

/-- The dictionary `flashcard_id_to_review` built by `get_due_flashcards`:
iterating the reviews in the order of the (descending `reviewed_at`) query,
the first review seen for each `flashcard_id` is kept, so the dictionary maps
an id to its first occurrence in the list. -/
def latestReviewFor (reviews : List FlashcardReviewRecord) (fid : String) :
    Option FlashcardReviewRecord :=
  reviews.find? (fun r => r.flashcard_id == fid)

/-- The key set of `flashcard_id_to_review` in insertion order: walk the ids,
skipping an id already seen (the `if review.flashcard_id not in
flashcard_id_to_review` test of the loop). -/
def dedupFirstAux (seen : List String) : List String → List String
  | [] => []
  | x :: xs =>
      if seen.contains x then dedupFirstAux seen xs
      else x :: dedupFirstAux (x :: seen) xs

/-- The key set of `flashcard_id_to_review`: every `flashcard_id` occurring
in the review list, first occurrences kept. -/
def dedupFirst (l : List String) : List String := dedupFirstAux [] l

/-- Lines 180-184 of `get_due_flashcards`: the ids whose latest review has a
non-null `next_review_at` that is `≤ now`. -/
def dueFlashcardIds (reviews : List FlashcardReviewRecord) (now : Int) :
    List String :=
  (dedupFirst (reviews.map (fun r => r.flashcard_id))).filter (fun fid =>
    match latestReviewFor reviews fid with
    | some r =>
        match r.next_review_at with
        | some t => decide (t ≤ now)
        | none => false
    | none => false)

/-- `SpacedRepetitionScheduler.get_due_flashcards`: select the latest review
per flashcard, keep those due now, fetch the matching flashcards and build
one entry per due flashcard from its latest review. -/
def getDueFlashcards (reviews : List FlashcardReviewRecord)
    (flashcards : List FlashcardRow) (now : Int) : List DueFlashcardEntry :=
  let dueIds := dueFlashcardIds reviews now
  (flashcards.filter (fun f => dueIds.contains f.id)).filterMap (fun f =>
    (latestReviewFor reviews f.id).map (fun r =>
      { id := f.id
        last_review := r.reviewed_at
        due_date := r.next_review_at
        last_confidence := r.confidence }))

/-! ### `get_spaced_repetition_schedule`
(`app/core/learning_manager.py` lines 335-395) -/

/-- One review item of the schedule (the constant `"type": "flashcard"` field
is omitted). -/
structure ScheduleItem where
  id : String
  topic : String
  due_date : Int
deriving DecidableEq

/-- The three buckets built by `get_spaced_repetition_schedule`.  `upcoming`
is the dictionary keyed by ISO date, modelled as the list of
(midnight-of-date, item) pairs in insertion order. -/
structure ScheduleBuckets where
  overdue : List ScheduleItem
  today : List ScheduleItem
  upcoming : List (Int × ScheduleItem)
deriving DecidableEq

/-- One iteration of the loop in `get_spaced_repetition_schedule`: skip a
review with null `next_review_at` or whose flashcard is missing, otherwise
append its item to the bucket selected by comparing the midnight of
`next_review_at` with the midnight of `as_of`.  `topicOf` models the
flashcard lookup plus topic extraction (`none` = flashcard row missing). -/
def scheduleStep (topicOf : String → Option String) (today days : Int)
    (acc : ScheduleBuckets) (review : FlashcardReviewRecord) :
    ScheduleBuckets :=
  match review.next_review_at with
  | none => acc
  | some t =>
      match topicOf review.flashcard_id with
      | none => acc
      | some topic =>
          let item : ScheduleItem :=
            { id := review.id, topic := topic, due_date := t }
          let reviewDate := midnightOf t
          if reviewDate < today then
            { acc with overdue := acc.overdue ++ [item] }
          else if reviewDate = today then
            { acc with today := acc.today ++ [item] }
          else if timedeltaDays (reviewDate - today) ≤ days then
            { acc with upcoming := acc.upcoming ++ [(reviewDate, item)] }
          else acc

/-- `LearningManager.get_spaced_repetition_schedule`: fold the loop body over
all review rows of the user (the query orders them by `next_review_at`;
the bucket classification does not depend on that order). -/
def getSpacedRepetitionSchedule (topicOf : String → Option String)
    (reviews : List FlashcardReviewRecord) (now : Int) (days : Int) :
    ScheduleBuckets :=
  reviews.foldl (scheduleStep topicOf (midnightOf now) days) ⟨[], [], []⟩

/-! ### Spec-worded definitions, for comparison with the code -/

/-- The repetition update exactly as the spec words it:
`repetitions_out = 0` if `confidence ≤ 2`, else `repetitions + 1`. -/
def claimRepetitionsOut (confidence repetitions : Int) : Int :=
  if confidence ≤ 2 then 0 else repetitions + 1

/-- The tiered interval rule exactly as the spec words it, keyed on
`repetitions_out`: 1 / 3 / 7 days for tiers 0 / 1 / 2 and
`min(180, ceil(previous_interval_days * ease_factor))` from tier 3 on. -/
def claimNextInterval (confidence previousInterval repetitions : Int) : Int :=
  let r := claimRepetitionsOut confidence repetitions
  if r = 0 then 1
  else if r = 1 then 3
  else if r = 2 then 7
  else min 180
    (Int.ceil ((previousInterval : ℚ)
      * (13/10 + ((confidence : ℚ) - 1) * (3/10))))

/-- The repetitions count as the spec words it: the number of consecutive
non-failing (confidence ≥ 3) prior reviews counted from the most recent one
backwards; a review with confidence ≤ 2 ends the streak, so reviews before
the most recent failure contribute nothing.  The list is ordered most recent
first, matching the query in `update_flashcard_schedule`. -/
def claimConsecutiveSuccessStreak
    (previousReviews : List FlashcardReviewRecord) : Int :=
  ((previousReviews.takeWhile (fun r => 3 ≤ r.confidence)).length : Int)

/-! ### Helper definitions for the proofs -/

/-- Helper: the overdue classification of one review by the loop body of
`get_spaced_repetition_schedule`. -/
def overdueEntryOf (topicOf : String → Option String) (today : Int)
    (r : FlashcardReviewRecord) : Option ScheduleItem :=
  match r.next_review_at with
  | none => none
  | some t =>
      match topicOf r.flashcard_id with
      | none => none
      | some topic =>
          if midnightOf t < today then some ⟨r.id, topic, t⟩ else none

/-- Helper: the due-today classification of one review. -/
def todayEntryOf (topicOf : String → Option String) (today : Int)
    (r : FlashcardReviewRecord) : Option ScheduleItem :=
  match r.next_review_at with
  | none => none
  | some t =>
      match topicOf r.flashcard_id with
      | none => none
      | some topic =>
          if midnightOf t < today then none
          else if midnightOf t = today then some ⟨r.id, topic, t⟩ else none

/-- Helper: the upcoming classification of one review, with its date key. -/
def upcomingEntryOf (topicOf : String → Option String) (today days : Int)
    (r : FlashcardReviewRecord) : Option (Int × ScheduleItem) :=
  match r.next_review_at with
  | none => none
  | some t =>
      match topicOf r.flashcard_id with
      | none => none
      | some topic =>
          if midnightOf t < today then none
          else if midnightOf t = today then none
          else if timedeltaDays (midnightOf t - today) ≤ days then
            some (midnightOf t, ⟨r.id, topic, t⟩)
          else none

/-- A topic resolver that finds every flashcard (used in concrete examples). -/
def constTopic : String → Option String := fun _ => some "General"

/-- Concrete review rows used in counterexamples and witnesses below. -/
def sampleFail : FlashcardReviewRecord :=
  ⟨"r1", "f1", "u1", 2, 9 * 86400, some (10 * 86400)⟩

/-- A successful (confidence 5) review older than `sampleFail`. -/
def sampleSucc : FlashcardReviewRecord :=
  ⟨"r2", "f1", "u1", 5, 5 * 86400, some (8 * 86400)⟩

/-- A recent successful review (confidence 5). -/
def sampleA : FlashcardReviewRecord :=
  ⟨"a", "f1", "u1", 5, 9 * 86400, some (10 * 86400)⟩

/-- A failed review (confidence 2) between `sampleA` and `sampleC`. -/
def sampleB : FlashcardReviewRecord :=
  ⟨"b", "f1", "u1", 2, 6 * 86400, some (7 * 86400)⟩

/-- An old successful review (confidence 4). -/
def sampleC : FlashcardReviewRecord :=
  ⟨"c", "f1", "u1", 4, 3 * 86400, some (5 * 86400)⟩

/-- The latest review of flashcard `"fw"`, due at day 6. -/
def sampleNew : FlashcardReviewRecord :=
  ⟨"w1", "fw", "uw", 4, 5 * 86400, some (6 * 86400)⟩

/-- An older review of flashcard `"fw"`, due at day 3. -/
def sampleOld : FlashcardReviewRecord :=
  ⟨"w2", "fw", "uw", 3, 2 * 86400, some (3 * 86400)⟩

/-- The flashcard-table row for `"fw"`. -/
def sampleRow : FlashcardRow := ⟨"fw"⟩

/-- Helper: the day lookup of `record_flashcard_review` as a case split on
the confidence value. -/
lemma lookup_day_map_spec (confidence : Int) :
    ((([(1, 1), (2, 3), (3, 7), (4, 14), (5, 30)] : List (Int × Int)).lookup
        confidence).getD 3)
      = (if confidence = 1 then 1 else if confidence = 2 then 3
         else if confidence = 3 then 7 else if confidence = 4 then 14
         else if confidence = 5 then 30 else 3) := by
  by_cases h1 : confidence = 1
  · subst h1; rfl
  · by_cases h2 : confidence = 2
    · subst h2; rfl
    · by_cases h3 : confidence = 3
      · subst h3; rfl
      · by_cases h4 : confidence = 4
        · subst h4; rfl
        · by_cases h5 : confidence = 5
          · subst h5; rfl
          · have e1 : (confidence == (1 : Int)) = false := by
              simp [h1]
            have e2 : (confidence == (2 : Int)) = false := by
              simp [h2]
            have e3 : (confidence == (3 : Int)) = false := by
              simp [h3]
            have e4 : (confidence == (4 : Int)) = false := by
              simp [h4]
            have e5 : (confidence == (5 : Int)) = false := by
              simp [h5]
            simp [List.lookup, e1, e2, e3, e4, e5, h1, h2, h3, h4, h5]

/-! ### Claim C6 -/

/-- C6: for every valid input, `calculate_next_review` implements exactly the
stated rule: `repetitions_out = 0` if `confidence ≤ 2` else `repetitions + 1`,
and `next_interval` is 1 / 3 / 7 for `repetitions_out` of 0 / 1 / 2 and
`min(180, ceil(previous_interval_days * ease_factor))` for
`repetitions_out ≥ 3`. -/
theorem calculate_next_review_implements_tiered_rule
    (confidence previousInterval repetitions now : Int)
    (hc1 : 1 ≤ confidence) (hc5 : confidence ≤ 5)
    (hp : 0 ≤ previousInterval) (hr : 0 ≤ repetitions) :
    (calculateNextReview confidence previousInterval repetitions now).repetitions
        = claimRepetitionsOut confidence repetitions
    ∧ (calculateNextReview confidence previousInterval repetitions now).nextInterval
        = claimNextInterval confidence previousInterval repetitions := by
  refine ⟨rfl, ?_⟩
  simp only [calculateNextReview, claimNextInterval, claimRepetitionsOut]
  split_ifs <;> simp [min_comm]

/-- Witness for C6 at `confidence = 5`, `previous_interval = 10`,
`repetitions = 3`. -/
theorem calculate_next_review_implements_tiered_rule_witness :
    (calculateNextReview 5 10 3 0).repetitions = claimRepetitionsOut 5 3
    ∧ (calculateNextReview 5 10 3 0).nextInterval = claimNextInterval 5 10 3 :=
  calculate_next_review_implements_tiered_rule 5 10 3 0 (by decide) (by decide)
    (by decide) (by decide)

/-! ### Claim C2 -/

/-- Counterexample to C2 as stated: `confidence = 3`,
`previous_interval_days = 0`, `repetitions = 2` is a valid input
(confidence in [1,5], interval and repetitions nonnegative), yet the
returned `next_interval` is `min(ceil(0 * 1.9), 180) = 0`, below the claimed
lower bound of 1 day. -/
theorem next_interval_zero_on_valid_input :
    ((1 : Int) ≤ 3 ∧ (3 : Int) ≤ 5 ∧ (0 : Int) ≤ 0 ∧ (0 : Int) ≤ 2)
    ∧ (calculateNextReview 3 0 2 0).nextInterval = 0
    ∧ ¬(1 ≤ (calculateNextReview 3 0 2 0).nextInterval) := by
  refine ⟨by decide, ?_, ?_⟩ <;> simp [calculateNextReview]

/-- C2 (amended): for every valid input that additionally has
`previous_interval_days ≥ 1`, or stays in the fixed tiers
(`repetitions ≤ 1` or `confidence ≤ 2`), the returned `next_interval` is at
least 1 and at most 180 days; the sole exception is
`previous_interval_days = 0` with `confidence ≥ 3` and `repetitions ≥ 2`,
where the interval degenerates to 0. -/
theorem next_interval_bounds
    (confidence previousInterval repetitions now : Int)
    (hc1 : 1 ≤ confidence) (hc5 : confidence ≤ 5)
    (hp : 0 ≤ previousInterval) (hr : 0 ≤ repetitions)
    (hnd : 1 ≤ previousInterval ∨ repetitions ≤ 1 ∨ confidence ≤ 2) :
    1 ≤ (calculateNextReview confidence previousInterval repetitions now).nextInterval
    ∧ (calculateNextReview confidence previousInterval repetitions now).nextInterval
        ≤ 180 := by
  by_cases hcle : confidence ≤ 2
  · simp [calculateNextReview, hcle]
  · have hc3 : 3 ≤ confidence := by omega
    by_cases hr0 : repetitions = 0
    · simp [calculateNextReview, hcle, hr0]
    · by_cases hr1 : repetitions = 1
      · simp [calculateNextReview, hcle, hr1]
      · have hr2 : 2 ≤ repetitions := by omega
        have hp1 : 1 ≤ previousInterval := by
          rcases hnd with h | h | h
          · exact h
          · omega
          · omega
        have hq3 : (3 : ℚ) ≤ (confidence : ℚ) := by exact_mod_cast hc3
        have hpq : (1 : ℚ) ≤ (previousInterval : ℚ) := by exact_mod_cast hp1
        have hease : (19/10 : ℚ)
            ≤ 13/10 + ((confidence : ℚ) - 1) * (3/10) := by linarith
        have hprod : (1 : ℚ)
            ≤ (previousInterval : ℚ)
              * (13/10 + ((confidence : ℚ) - 1) * (3/10)) := by nlinarith
        have hceil : (1 : Int)
            ≤ Int.ceil ((previousInterval : ℚ)
              * (13/10 + ((confidence : ℚ) - 1) * (3/10))) := by
          have := Int.ceil_pos.mpr (lt_of_lt_of_le one_pos hprod)
          omega
        have hne0 : ¬(repetitions + 1 = 0) := by omega
        have hne1 : ¬(repetitions + 1 = 1) := by omega
        have hne2 : ¬(repetitions + 1 = 2) := by omega
        simp only [calculateNextReview, if_neg hcle, if_neg hne0, if_neg hne1,
          if_neg hne2]
        exact ⟨le_min hceil (by norm_num), min_le_right _ _⟩

/-- Witness for the amended C2 at `confidence = 3`, `previous_interval = 10`,
`repetitions = 3` (interval `ceil(10 * 1.9) = 19`). -/
theorem next_interval_bounds_witness :
    1 ≤ (calculateNextReview 3 10 3 0).nextInterval
    ∧ (calculateNextReview 3 10 3 0).nextInterval ≤ 180 :=
  next_interval_bounds 3 10 3 0 (by decide) (by decide) (by decide) (by decide)
    (Or.inl (by decide))

/-! ### Claim C8 -/

/-- C8: for every valid input the ease factor equals
`1.3 + (confidence - 1) * 0.3`, depends only on confidence (it is unchanged
under any other `previous_interval_days`, `repetitions` and clock), is
monotonically non-decreasing in confidence, and takes the values 1.3, 1.9 and
2.5 at confidence 1, 3 and 5. -/
theorem ease_factor_pure_in_confidence
    (confidence confidence2 previousInterval repetitions now p2 r2 n2 : Int)
    (hc1 : 1 ≤ confidence) (hc5 : confidence2 ≤ 5)
    (hmono : confidence ≤ confidence2) :
    (calculateNextReview confidence previousInterval repetitions now).easeFactor
        = 13/10 + ((confidence : ℚ) - 1) * (3/10)
    ∧ (calculateNextReview confidence previousInterval repetitions now).easeFactor
        = (calculateNextReview confidence p2 r2 n2).easeFactor
    ∧ (calculateNextReview confidence previousInterval repetitions now).easeFactor
        ≤ (calculateNextReview confidence2 previousInterval repetitions now).easeFactor
    ∧ (calculateNextReview 1 previousInterval repetitions now).easeFactor = 13/10
    ∧ (calculateNextReview 3 previousInterval repetitions now).easeFactor = 19/10
    ∧ (calculateNextReview 5 previousInterval repetitions now).easeFactor = 5/2 := by
  refine ⟨rfl, rfl, ?_, by norm_num [calculateNextReview],
    by norm_num [calculateNextReview], by norm_num [calculateNextReview]⟩
  have hq : (confidence : ℚ) ≤ (confidence2 : ℚ) := by exact_mod_cast hmono
  simp only [calculateNextReview]
  linarith

/-- Witness for C8 at `confidence = 3` and `confidence2 = 4`. -/
theorem ease_factor_pure_in_confidence_witness :
    (calculateNextReview 3 10 2 0).easeFactor = 13/10 + ((3 : ℚ) - 1) * (3/10)
    ∧ (calculateNextReview 3 10 2 0).easeFactor
        = (calculateNextReview 3 7 5 99).easeFactor
    ∧ (calculateNextReview 3 10 2 0).easeFactor
        ≤ (calculateNextReview 4 10 2 0).easeFactor
    ∧ (calculateNextReview 1 10 2 0).easeFactor = 13/10
    ∧ (calculateNextReview 3 10 2 0).easeFactor = 19/10
    ∧ (calculateNextReview 5 10 2 0).easeFactor = 5/2 :=
  ease_factor_pure_in_confidence 3 4 10 2 0 7 5 99 (by decide) (by decide)
    (by decide)

/-! ### Claim C10 -/

/-- C10: the two confidence normalizations at the progress-update boundary
disagree: `update_flashcard_schedule` reports `(confidence - 1) / 4.0`
(1..5 onto 0..1) while `record_activity` reports `confidence / 5`
(1..5 onto 0.2..1), and for confidence in 1..5 they agree exactly when
`confidence = 5`. -/
theorem normalization_mismatch (confidence : Int)
    (h1 : 1 ≤ confidence) (h5 : confidence ≤ 5) :
    (updateScheduleNormalizedConfidence confidence
        = recordActivityFlashcardConfidence confidence ↔ confidence = 5)
    ∧ updateScheduleNormalizedConfidence 1 = 0
    ∧ updateScheduleNormalizedConfidence 5 = 1
    ∧ recordActivityFlashcardConfidence 1 = 1/5
    ∧ recordActivityFlashcardConfidence 5 = 1 := by
  interval_cases confidence <;>
    norm_num [updateScheduleNormalizedConfidence,
      recordActivityFlashcardConfidence]

/-- Witness for C10 at `confidence = 5`, where the two normalizations agree. -/
theorem normalization_mismatch_witness :
    (updateScheduleNormalizedConfidence 5
        = recordActivityFlashcardConfidence 5 ↔ (5 : Int) = 5)
    ∧ updateScheduleNormalizedConfidence 1 = 0
    ∧ updateScheduleNormalizedConfidence 5 = 1
    ∧ recordActivityFlashcardConfidence 1 = 1/5
    ∧ recordActivityFlashcardConfidence 5 = 1 :=
  normalization_mismatch 5 (by decide) (by decide)

/-! ### Claim C9 -/

/-- C9: the persistence function `record_flashcard_review` ignores history and
scheduler output: for every confidence it writes exactly one record whose
`next_review_at` is `now` plus the fixed number of days given by the map
`{1: 1, 2: 3, 3: 7, 4: 14, 5: 30}`, defaulting to 3 days for any other
confidence, and it is total, never raising on out-of-range confidence. -/
theorem record_flashcard_review_fixed_day_map
    (now : Int) (newId fid uid : String) (confidence : Int) :
    (recordFlashcardReview now newId fid uid confidence).2
        = [(recordFlashcardReview now newId fid uid confidence).1]
    ∧ (recordFlashcardReview now newId fid uid confidence).1.next_review_at
        = some (now +
            (if confidence = 1 then 1 else if confidence = 2 then 3
             else if confidence = 3 then 7 else if confidence = 4 then 14
             else if confidence = 5 then 30 else 3) * secondsPerDay)
    ∧ (recordFlashcardReview now newId fid uid confidence).1.confidence
        = confidence
    ∧ (recordFlashcardReview now newId fid uid confidence).1.reviewed_at = now := by
  refine ⟨rfl, ?_, rfl, rfl⟩
  show some (now + ((([(1, 1), (2, 3), (3, 7), (4, 14), (5, 30)] :
      List (Int × Int)).lookup confidence).getD 3) * secondsPerDay) = _
  rw [lookup_day_map_spec]

/-! ### Claim C4 -/

/-- Counterexample to C4 as stated: at `confidence = 0`, which is outside
[1,5], no error is raised anywhere: `calculate_next_review` computes an ease
factor (`1.3 + (0 - 1) * 0.3 = 1.0`) and an interval, and
`record_flashcard_review` still writes one `ReviewRecord` — there is no
`InvalidConfidenceError` in the code, so neither the claimed rejection nor
the claimed absence of persistence happens. -/
theorem out_of_range_confidence_not_rejected :
    ((0 : Int) < 1 ∨ 5 < (0 : Int))
    ∧ (calculateNextReview 0 5 2 0).easeFactor = 1
    ∧ (calculateNextReview 0 5 2 0).nextInterval = 1
    ∧ (recordFlashcardReview 0 "id0" "card0" "user0" 0).2.length = 1 := by
  refine ⟨Or.inl (by decide), ?_, ?_, ?_⟩
  · show (13/10 : ℚ) + (((0 : Int) : ℚ) - 1) * (3/10) = 1
    norm_num
  · simp [calculateNextReview]
  · rfl

/-- C4 (amended): confidence outside [1,5] is not rejected by the core: no
`InvalidConfidenceError` exists; `calculate_next_review` computes the ease
factor by the same formula and returns normally, and
`record_flashcard_review` persists exactly one record using the 3-day
default of its day map.  (Range validation exists only in the HTTP route
`/progress/flashcard/review`, which returns a 400 before calling the core.) -/
theorem out_of_range_confidence_flows_through
    (confidence previousInterval repetitions now : Int) (newId fid uid : String)
    (h : confidence < 1 ∨ 5 < confidence) :
    (calculateNextReview confidence previousInterval repetitions now).easeFactor
        = 13/10 + ((confidence : ℚ) - 1) * (3/10)
    ∧ (recordFlashcardReview now newId fid uid confidence).2.length = 1
    ∧ (recordFlashcardReview now newId fid uid confidence).1.next_review_at
        = some (now + 3 * secondsPerDay) := by
  refine ⟨rfl, rfl, ?_⟩
  have h1 : confidence ≠ 1 := by omega
  have h2 : confidence ≠ 2 := by omega
  have h3 : confidence ≠ 3 := by omega
  have h4 : confidence ≠ 4 := by omega
  have h5 : confidence ≠ 5 := by omega
  show some (now + ((([(1, 1), (2, 3), (3, 7), (4, 14), (5, 30)] :
      List (Int × Int)).lookup confidence).getD 3) * secondsPerDay) = _
  rw [lookup_day_map_spec]
  simp [h1, h2, h3, h4, h5]

/-- Witness for the amended C4 at `confidence = 0`. -/
theorem out_of_range_confidence_flows_through_witness :
    (calculateNextReview 0 5 2 0).easeFactor = 13/10 + (((0 : Int) : ℚ) - 1) * (3/10)
    ∧ (recordFlashcardReview 0 "id0" "card0" "user0" 0).2.length = 1
    ∧ (recordFlashcardReview 0 "id0" "card0" "user0" 0).1.next_review_at
        = some (0 + 3 * secondsPerDay) :=
  out_of_range_confidence_flows_through 0 5 2 0 "id0" "card0" "user0"
    (Or.inl (by decide))

/-! ### Claim C1 -/

/-- C1 (code bug): the scheduler output is never persisted.
`update_flashcard_schedule` passes the keyword argument `next_review_at`,
but `record_flashcard_review` declares no such parameter, so the Python call
raises `TypeError` before anything is written; and even the body of
`record_flashcard_review` computes its own `next_review_at` from the fixed
day map, which differs from the scheduler's value (at confidence 5 with
10-day previous interval and 5 repetitions the scheduler says 25 days, the
repository map says 30 days). -/
theorem record_call_parameter_mismatch :
    keywordsAccepted recordFlashcardReviewParams updateScheduleRecordCallKeywords
        = false
    ∧ "next_review_at" ∈ updateScheduleRecordCallKeywords
    ∧ "next_review_at" ∉ recordFlashcardReviewParams
    ∧ (recordFlashcardReview 0 "id0" "card0" "user0" 5).1.next_review_at
        = some (30 * secondsPerDay)
    ∧ (calculateNextReview 5 10 5 0).nextReviewDate = 25 * secondsPerDay
    ∧ (30 * secondsPerDay : Int) ≠ 25 * secondsPerDay := by
  refine ⟨by decide, by decide, by decide, by decide, ?_, by decide⟩
  show (0 : Int) + (min (Int.ceil ((10 : ℚ) * (13/10 + ((5 : ℚ) - 1) * (3/10))))
    180) * secondsPerDay = 25 * secondsPerDay
  norm_num [secondsPerDay, Int.ceil_intCast, show (10 : ℚ) * (13/10 + ((5 : ℚ) - 1) * (3/10)) = 25 by norm_num]

/-! ### Claim C3 -/

/-- Repetitions derived by `update_flashcard_schedule` equal the count of all
prior reviews with confidence ≥ 3, for any history (lines 94-101). -/
lemma deriveReviewParams_repetitions_eq_count
    (l : List FlashcardReviewRecord) (now : Int) :
    (deriveReviewParams l now).2
        = ((l.filter (fun r => 3 ≤ r.confidence)).length : Int) := by
  cases l <;> rfl

/-- Counterexample to C3 as stated: with prior reviews (most recent first)
having confidences `[2, 5]`, the consecutive-success streak is 0 — the most
recent prior review failed — but the code passes `repetitions = 1` to the
scheduler, because it counts every review with confidence ≥ 3 anywhere in
the history. -/
theorem repetitions_not_consecutive_streak :
    sampleFail.confidence = 2 ∧ sampleSucc.confidence = 5
    ∧ (deriveReviewParams [sampleFail, sampleSucc] (10 * 86400)).2 = 1
    ∧ claimConsecutiveSuccessStreak [sampleFail, sampleSucc] = 0
    ∧ (1 : Int) ≠ 0 := by
  refine ⟨rfl, rfl, rfl, rfl, by decide⟩

/-- C3 (amended): the repetitions value passed to the scheduler is the count
of all prior reviews with confidence ≥ 3 over the entire stored history; a
failed review (confidence ≤ 2) contributes nothing but does not reset the
count, so successes before the most recent failure still contribute. -/
theorem repetitions_counts_all_successes
    (pre post : List FlashcardReviewRecord) (failed : FlashcardReviewRecord)
    (now now2 now3 : Int) (h : failed.confidence ≤ 2) :
    (deriveReviewParams (pre ++ failed :: post) now).2
        = (deriveReviewParams pre now2).2 + (deriveReviewParams post now3).2
    ∧ (deriveReviewParams (pre ++ failed :: post) now).2
        = (((pre ++ failed :: post).filter
            (fun r => 3 ≤ r.confidence)).length : Int) := by
  have hf : ¬(3 ≤ failed.confidence) := by omega
  refine ⟨?_, deriveReviewParams_repetitions_eq_count _ _⟩
  simp [deriveReviewParams_repetitions_eq_count, List.filter_append,
    List.filter_cons, hf]

/-! ### Claim C5 -/

/-- Helper: one loop iteration appends to `overdue` exactly the overdue
classification of the review. -/
lemma scheduleStep_overdue (topicOf : String → Option String)
    (today days : Int) (acc : ScheduleBuckets) (r : FlashcardReviewRecord) :
    (scheduleStep topicOf today days acc r).overdue
      = acc.overdue ++ (overdueEntryOf topicOf today r).toList := by
  unfold scheduleStep overdueEntryOf
  cases r.next_review_at with
  | none => simp
  | some t =>
      cases topicOf r.flashcard_id with
      | none => simp
      | some topic => dsimp only; split_ifs <;> simp

/-- Helper: one loop iteration appends to `today` exactly the due-today
classification of the review. -/
lemma scheduleStep_today (topicOf : String → Option String)
    (today days : Int) (acc : ScheduleBuckets) (r : FlashcardReviewRecord) :
    (scheduleStep topicOf today days acc r).today
      = acc.today ++ (todayEntryOf topicOf today r).toList := by
  unfold scheduleStep todayEntryOf
  cases r.next_review_at with
  | none => simp
  | some t =>
      cases topicOf r.flashcard_id with
      | none => simp
      | some topic => dsimp only; split_ifs <;> simp

/-- Helper: one loop iteration appends to `upcoming` exactly the upcoming
classification of the review. -/
lemma scheduleStep_upcoming (topicOf : String → Option String)
    (today days : Int) (acc : ScheduleBuckets) (r : FlashcardReviewRecord) :
    (scheduleStep topicOf today days acc r).upcoming
      = acc.upcoming ++ (upcomingEntryOf topicOf today days r).toList := by
  unfold scheduleStep upcomingEntryOf
  cases r.next_review_at with
  | none => simp
  | some t =>
      cases topicOf r.flashcard_id with
      | none => simp
      | some topic => dsimp only; split_ifs <;> simp

/-- Helper: the loop of `get_spaced_repetition_schedule` collects into
`overdue` the overdue classification of every review, in order. -/
lemma schedule_foldl_overdue (topicOf : String → Option String)
    (today days : Int) :
    ∀ (l : List FlashcardReviewRecord) (acc : ScheduleBuckets),
      (l.foldl (scheduleStep topicOf today days) acc).overdue
        = acc.overdue ++ l.filterMap (overdueEntryOf topicOf today) := by
  intro l
  induction l with
  | nil => intro acc; simp
  | cons r rest ih =>
      intro acc
      rw [List.foldl_cons, ih, scheduleStep_overdue]
      cases h : overdueEntryOf topicOf today r <;>
        simp [List.filterMap_cons, h]

/-- Helper: the loop collects into `today` the due-today classification of
every review, in order. -/
lemma schedule_foldl_today (topicOf : String → Option String)
    (today days : Int) :
    ∀ (l : List FlashcardReviewRecord) (acc : ScheduleBuckets),
      (l.foldl (scheduleStep topicOf today days) acc).today
        = acc.today ++ l.filterMap (todayEntryOf topicOf today) := by
  intro l
  induction l with
  | nil => intro acc; simp
  | cons r rest ih =>
      intro acc
      rw [List.foldl_cons, ih, scheduleStep_today]
      cases h : todayEntryOf topicOf today r <;>
        simp [List.filterMap_cons, h]

/-- Helper: the loop collects into `upcoming` the upcoming classification of
every review, in order. -/
lemma schedule_foldl_upcoming (topicOf : String → Option String)
    (today days : Int) :
    ∀ (l : List FlashcardReviewRecord) (acc : ScheduleBuckets),
      (l.foldl (scheduleStep topicOf today days) acc).upcoming
        = acc.upcoming ++ l.filterMap (upcomingEntryOf topicOf today days) := by
  intro l
  induction l with
  | nil => intro acc; simp
  | cons r rest ih =>
      intro acc
      rw [List.foldl_cons, ih, scheduleStep_upcoming]
      cases h : upcomingEntryOf topicOf today days r <;>
        simp [List.filterMap_cons, h]

/-- Witness for the amended C3: history `[5, 2, 4]` (most recent first)
derives `repetitions = 2 = 1 + 1`, the failure in the middle splitting but
not resetting the count. -/
theorem repetitions_counts_all_successes_witness :
    (deriveReviewParams ([sampleA] ++ sampleB :: [sampleC]) (10 * 86400)).2
      = (deriveReviewParams [sampleA] (2 * 86400)).2
        + (deriveReviewParams [sampleC] (3 * 86400)).2
    ∧ (deriveReviewParams ([sampleA] ++ sampleB :: [sampleC]) (10 * 86400)).2
      = ((([sampleA] ++ sampleB :: [sampleC]).filter
          (fun r => 3 ≤ r.confidence)).length : Int) :=
  repetitions_counts_all_successes [sampleA] [sampleC] sampleB
    (10 * 86400) (2 * 86400) (3 * 86400) (by decide)

/-- Helper: when `overdueEntryOf` produces an item. -/
lemma overdueEntryOf_eq_some (topicOf : String → Option String) (today : Int)
    (r : FlashcardReviewRecord) (item : ScheduleItem) :
    overdueEntryOf topicOf today r = some item
      ↔ ∃ t, r.next_review_at = some t
          ∧ ∃ tp, topicOf r.flashcard_id = some tp
            ∧ midnightOf t < today ∧ item = ⟨r.id, tp, t⟩ := by
  unfold overdueEntryOf
  cases hnx : r.next_review_at with
  | none => simp
  | some t =>
      cases htp : topicOf r.flashcard_id with
      | none => simp
      | some tp =>
          dsimp only
          constructor
          · intro h
            split_ifs at h with hlt
            exact ⟨t, rfl, tp, rfl, hlt, (Option.some.inj h).symm⟩
          · rintro ⟨t2, ht2, tp2, htp2, hlt, hitem⟩
            obtain rfl : t = t2 := by injection ht2
            obtain rfl : tp = tp2 := by injection htp2
            rw [if_pos hlt, hitem]

/-- Helper: when `todayEntryOf` produces an item. -/
lemma todayEntryOf_eq_some (topicOf : String → Option String) (today : Int)
    (r : FlashcardReviewRecord) (item : ScheduleItem) :
    todayEntryOf topicOf today r = some item
      ↔ ∃ t, r.next_review_at = some t
          ∧ ∃ tp, topicOf r.flashcard_id = some tp
            ∧ midnightOf t = today ∧ item = ⟨r.id, tp, t⟩ := by
  unfold todayEntryOf
  cases hnx : r.next_review_at with
  | none => simp
  | some t =>
      cases htp : topicOf r.flashcard_id with
      | none => simp
      | some tp =>
          dsimp only
          constructor
          · intro h
            split_ifs at h with hlt heq
            exact ⟨t, rfl, tp, rfl, heq, (Option.some.inj h).symm⟩
          · rintro ⟨t2, ht2, tp2, htp2, heq, hitem⟩
            obtain rfl : t = t2 := by injection ht2
            obtain rfl : tp = tp2 := by injection htp2
            rw [if_neg (by omega : ¬midnightOf t < today), if_pos heq, hitem]

/-- Helper: when `upcomingEntryOf` produces a keyed item. -/
lemma upcomingEntryOf_eq_some (topicOf : String → Option String)
    (today days : Int) (r : FlashcardReviewRecord) (d : Int)
    (item : ScheduleItem) :
    upcomingEntryOf topicOf today days r = some (d, item)
      ↔ ∃ t, r.next_review_at = some t
          ∧ ∃ tp, topicOf r.flashcard_id = some tp
            ∧ midnightOf t = d ∧ today < d
            ∧ timedeltaDays (d - today) ≤ days ∧ item = ⟨r.id, tp, t⟩ := by
  unfold upcomingEntryOf
  cases hnx : r.next_review_at with
  | none => simp
  | some t =>
      cases htp : topicOf r.flashcard_id with
      | none => simp
      | some tp =>
          dsimp only
          constructor
          · intro h
            split_ifs at h with hlt heq hdays
            have hpair := Option.some.inj h
            have hd : midnightOf t = d := congrArg Prod.fst hpair
            have hitem : (⟨r.id, tp, t⟩ : ScheduleItem) = item :=
              congrArg Prod.snd hpair
            exact ⟨t, rfl, tp, rfl, hd, by omega, hd ▸ hdays, hitem.symm⟩
          · rintro ⟨t2, ht2, tp2, htp2, hd, htoday, hdays2, hitem⟩
            obtain rfl : t = t2 := by injection ht2
            obtain rfl : tp = tp2 := by injection htp2
            subst hd
            rw [if_neg (by omega : ¬midnightOf t < today),
              if_neg (by omega : ¬midnightOf t = today), if_pos hdays2, hitem]


/-- Counterexample to C5 as stated: two review records of the same flashcard
`"f1"` (`sampleFail` newest, `sampleSucc` older), both with a past
`next_review_at`, each produce their own entry in `overdue` — the item
contributes two entries and the record older than the item's latest appears
in a bucket, because `get_spaced_repetition_schedule` iterates over all
review rows without selecting the latest per flashcard. -/
theorem schedule_buckets_duplicate_item :
    sampleFail.flashcard_id = sampleSucc.flashcard_id
    ∧ sampleSucc.reviewed_at < sampleFail.reviewed_at
    ∧ ((getSpacedRepetitionSchedule constTopic [sampleFail, sampleSucc]
          (12 * 86400 + 3600) 7).overdue.map (fun item => item.id))
        = ["r1", "r2"] := by
  refine ⟨rfl, by decide, ?_⟩
  rfl

/-- C5 (amended): `get_schedule` buckets every review record of the learner,
not only the latest per item: each record with a non-null `next_review_at`
whose flashcard exists is placed in `overdue` if its date is before the
`as_of` date, in `today` if equal, and in `upcoming` under its date if within
`(as_of date, as_of date + horizon_days]`; records strictly beyond the
horizon are omitted.  An item with several records contributes one entry per
record, and records older than the item's latest do appear. -/
theorem schedule_buckets_every_record
    (topicOf : String → Option String) (reviews : List FlashcardReviewRecord)
    (now days : Int) (rid : String) :
    ((∃ item ∈ (getSpacedRepetitionSchedule topicOf reviews now days).overdue,
        item.id = rid)
      ↔ ∃ r ∈ reviews, r.id = rid ∧ ∃ t, r.next_review_at = some t
          ∧ (∃ tp, topicOf r.flashcard_id = some tp)
          ∧ midnightOf t < midnightOf now)
    ∧ ((∃ item ∈ (getSpacedRepetitionSchedule topicOf reviews now days).today,
        item.id = rid)
      ↔ ∃ r ∈ reviews, r.id = rid ∧ ∃ t, r.next_review_at = some t
          ∧ (∃ tp, topicOf r.flashcard_id = some tp)
          ∧ midnightOf t = midnightOf now)
    ∧ (∀ d : Int,
        (∃ item, (d, item)
            ∈ (getSpacedRepetitionSchedule topicOf reviews now days).upcoming
          ∧ item.id = rid)
      ↔ ∃ r ∈ reviews, r.id = rid ∧ ∃ t, r.next_review_at = some t
          ∧ (∃ tp, topicOf r.flashcard_id = some tp)
          ∧ midnightOf t = d ∧ midnightOf now < d
          ∧ timedeltaDays (d - midnightOf now) ≤ days) := by
  refine ⟨?_, ?_, ?_⟩
  · rw [getSpacedRepetitionSchedule, schedule_foldl_overdue]
    simp only [List.nil_append]
    constructor
    · rintro ⟨item, hmem, hid⟩
      rw [List.mem_filterMap] at hmem
      obtain ⟨r, hr, he⟩ := hmem
      rw [overdueEntryOf_eq_some] at he
      obtain ⟨t, hnx, tp, htp, hlt, hitem⟩ := he
      subst hitem
      exact ⟨r, hr, hid, t, hnx, ⟨tp, htp⟩, hlt⟩
    · rintro ⟨r, hr, hid, t, hnx, ⟨tp, htp⟩, hlt⟩
      refine ⟨⟨r.id, tp, t⟩, ?_, hid⟩
      exact List.mem_filterMap.mpr
        ⟨r, hr, (overdueEntryOf_eq_some topicOf _ r _).mpr
          ⟨t, hnx, tp, htp, hlt, rfl⟩⟩
  · rw [getSpacedRepetitionSchedule, schedule_foldl_today]
    simp only [List.nil_append]
    constructor
    · rintro ⟨item, hmem, hid⟩
      rw [List.mem_filterMap] at hmem
      obtain ⟨r, hr, he⟩ := hmem
      rw [todayEntryOf_eq_some] at he
      obtain ⟨t, hnx, tp, htp, heq, hitem⟩ := he
      subst hitem
      exact ⟨r, hr, hid, t, hnx, ⟨tp, htp⟩, heq⟩
    · rintro ⟨r, hr, hid, t, hnx, ⟨tp, htp⟩, heq⟩
      refine ⟨⟨r.id, tp, t⟩, ?_, hid⟩
      exact List.mem_filterMap.mpr
        ⟨r, hr, (todayEntryOf_eq_some topicOf _ r _).mpr
          ⟨t, hnx, tp, htp, heq, rfl⟩⟩
  · intro d
    rw [getSpacedRepetitionSchedule, schedule_foldl_upcoming]
    simp only [List.nil_append]
    constructor
    · rintro ⟨item, hmem, hid⟩
      rw [List.mem_filterMap] at hmem
      obtain ⟨r, hr, he⟩ := hmem
      rw [upcomingEntryOf_eq_some] at he
      obtain ⟨t, hnx, tp, htp, hd, htoday, hdays, hitem⟩ := he
      subst hitem
      exact ⟨r, hr, hid, t, hnx, ⟨tp, htp⟩, hd, htoday, hdays⟩
    · rintro ⟨r, hr, hid, t, hnx, ⟨tp, htp⟩, hd, htoday, hdays⟩
      refine ⟨⟨r.id, tp, t⟩, ?_, hid⟩
      exact List.mem_filterMap.mpr
        ⟨r, hr, (upcomingEntryOf_eq_some topicOf _ days r d _).mpr
          ⟨t, hnx, tp, htp, hd, htoday, hdays, rfl⟩⟩

/-! ### Claim C7 -/

/-- Helper: membership in `dedupFirstAux`: an id is kept iff it occurs in the
remaining list and was not seen before. -/
lemma mem_dedupFirstAux (x : String) :
    ∀ (l seen : List String),
      x ∈ dedupFirstAux seen l ↔ (x ∈ l ∧ x ∉ seen) := by
  intro l
  induction l with
  | nil => intro seen; simp [dedupFirstAux]
  | cons y ys ih =>
      intro seen
      by_cases hy : seen.contains y
      · have hy2 : y ∈ seen := List.mem_of_elem_eq_true hy
        rw [dedupFirstAux, if_pos hy, ih]
        constructor
        · rintro ⟨hxy, hxs⟩
          exact ⟨List.mem_cons_of_mem _ hxy, hxs⟩
        · rintro ⟨hor, hxs⟩
          rcases List.mem_cons.mp hor with rfl | hmem
          · exact absurd hy2 hxs
          · exact ⟨hmem, hxs⟩
      · have hy2 : y ∉ seen := fun hc => hy (List.elem_eq_true_of_mem hc)
        rw [dedupFirstAux, if_neg hy]
        constructor
        · intro hmem
          rcases List.mem_cons.mp hmem with rfl | hmem2
          · exact ⟨List.mem_cons_self _ _, hy2⟩
          · obtain ⟨hxy, hxs⟩ := (ih (y :: seen)).mp hmem2
            have : x ∉ seen := fun hc => hxs (List.mem_cons_of_mem _ hc)
            exact ⟨List.mem_cons_of_mem _ hxy, this⟩
        · rintro ⟨hor, hxs⟩
          rcases List.mem_cons.mp hor with rfl | hmem
          · exact List.mem_cons_self _ _
          · by_cases hxy : x = y
            · subst hxy; exact List.mem_cons_self _ _
            · refine List.mem_cons_of_mem _ ((ih (y :: seen)).mpr ⟨hmem, ?_⟩)
              intro hc
              rcases List.mem_cons.mp hc with h | h
              · exact hxy h
              · exact hxs h

/-- Helper: `dedupFirstAux` never repeats an id. -/
lemma nodup_dedupFirstAux :
    ∀ (l seen : List String), (dedupFirstAux seen l).Nodup := by
  intro l
  induction l with
  | nil => intro seen; simp [dedupFirstAux]
  | cons y ys ih =>
      intro seen
      by_cases hy : seen.contains y
      · rw [dedupFirstAux, if_pos hy]; exact ih seen
      · rw [dedupFirstAux, if_neg hy]
        refine List.nodup_cons.mpr ⟨?_, ih _⟩
        intro hmem
        exact ((mem_dedupFirstAux y ys (y :: seen)).mp hmem).2
          (List.mem_cons_self y seen)

/-- Helper: membership in `dedupFirst` is membership in the original list. -/
lemma mem_dedupFirst (x : String) (l : List String) :
    x ∈ dedupFirst l ↔ x ∈ l := by
  unfold dedupFirst
  rw [mem_dedupFirstAux]
  simp

/-- Helper: under a strictly descending `reviewed_at` order, the dictionary
entry for an id is exactly the unique maximal (latest) review with that id. -/
lemma latestReviewFor_eq_some :
    ∀ (reviews : List FlashcardReviewRecord),
      reviews.Pairwise (fun a b => b.reviewed_at < a.reviewed_at) →
      ∀ (fid : String) (r : FlashcardReviewRecord),
        (latestReviewFor reviews fid = some r
          ↔ r ∈ reviews ∧ r.flashcard_id = fid
              ∧ ∀ r2 ∈ reviews, r2.flashcard_id = fid →
                  r2 = r ∨ r2.reviewed_at < r.reviewed_at) := by
  intro reviews
  induction reviews with
  | nil => intro _ fid r; simp [latestReviewFor]
  | cons a l ih =>
      intro hsorted fid r
      obtain ⟨ha, hl⟩ := List.pairwise_cons.mp hsorted
      unfold latestReviewFor
      by_cases hpa : a.flashcard_id = fid
      · rw [List.find?_cons_of_pos _ (by simp [hpa])]
        constructor
        · intro h
          obtain rfl : a = r := by injection h
          refine ⟨List.mem_cons_self _ _, hpa, ?_⟩
          intro r2 hr2 hid2
          rcases List.mem_cons.mp hr2 with rfl | hr2l
          · exact Or.inl rfl
          · exact Or.inr (ha r2 hr2l)
        · rintro ⟨hr, hid, hmax⟩
          rcases List.mem_cons.mp hr with rfl | hrl
          · rfl
          · have h1 : r.reviewed_at < a.reviewed_at := ha r hrl
            rcases hmax a (List.mem_cons_self _ _) hpa with rfl | h2
            · rfl
            · exact absurd h2 (lt_asymm h1)
      · rw [List.find?_cons_of_neg _ (by simp [hpa])]
        rw [show (List.find? (fun r2 => r2.flashcard_id == fid) l)
            = latestReviewFor l fid from rfl, ih hl fid r]
        constructor
        · rintro ⟨hrl, hid, hmax⟩
          refine ⟨List.mem_cons_of_mem _ hrl, hid, ?_⟩
          intro r2 hr2 hid2
          rcases List.mem_cons.mp hr2 with rfl | hr2l
          · exact absurd hid2 hpa
          · exact hmax r2 hr2l hid2
        · rintro ⟨hr, hid, hmax⟩
          rcases List.mem_cons.mp hr with rfl | hrl
          · exact absurd hid hpa
          · exact ⟨hrl, hid,
              fun r2 hr2 hid2 => hmax r2 (List.mem_cons_of_mem _ hr2) hid2⟩

/-- Helper: an id is in `dueFlashcardIds` iff its dictionary entry (the
latest review) has a non-null `next_review_at` that has passed. -/
lemma mem_dueFlashcardIds (reviews : List FlashcardReviewRecord) (now : Int)
    (fid : String) :
    fid ∈ dueFlashcardIds reviews now
      ↔ ∃ r, latestReviewFor reviews fid = some r
          ∧ ∃ t, r.next_review_at = some t ∧ t ≤ now := by
  unfold dueFlashcardIds
  rw [List.mem_filter, mem_dedupFirst]
  constructor
  · rintro ⟨hmem, hcond⟩
    revert hcond
    cases hfind : latestReviewFor reviews fid with
    | none => intro hcond; simp at hcond
    | some r =>
        intro hcond
        cases hnx : r.next_review_at with
        | none => simp [hnx] at hcond
        | some t =>
            simp only [hnx, decide_eq_true_eq] at hcond
            exact ⟨r, rfl, t, hnx, hcond⟩
  · rintro ⟨r, hfind, t, hnx, hle⟩
    have hfind2 : reviews.find? (fun r2 => r2.flashcard_id == fid) = some r :=
      hfind
    have hrmem : r ∈ reviews := List.mem_of_find?_eq_some hfind2
    have hid := List.find?_some hfind2
    constructor
    · exact List.mem_map.mpr ⟨r, hrmem, by simpa using hid⟩
    · rw [hfind]
      simp [hnx, hle]

/-- Helper: any entry id produced by the entry builder of
`get_due_flashcards` over a flashcard list is the id of one of those
flashcards. -/
lemma mem_due_entry_ids (reviews : List FlashcardReviewRecord)
    (fs : List FlashcardRow) (x : String)
    (hx : x ∈ (fs.filterMap (fun f =>
        (latestReviewFor reviews f.id).map (fun r =>
          ({ id := f.id, last_review := r.reviewed_at,
             due_date := r.next_review_at,
             last_confidence := r.confidence } : DueFlashcardEntry)))).map
        DueFlashcardEntry.id) :
    ∃ f ∈ fs, f.id = x := by
  obtain ⟨e, he, hex⟩ := List.mem_map.mp hx
  obtain ⟨f, hf, hfe⟩ := List.mem_filterMap.mp he
  obtain ⟨r, _, hre⟩ := Option.map_eq_some'.mp hfe
  refine ⟨f, hf, ?_⟩
  rw [← hex, ← hre]

/-- Helper: the entry ids of `get_due_flashcards` are nodup whenever the
flashcard-table ids are. -/
lemma nodup_due_entry_ids (reviews : List FlashcardReviewRecord) (now : Int) :
    ∀ (fs : List FlashcardRow), (fs.map FlashcardRow.id).Nodup →
      (((fs.filter (fun f => (dueFlashcardIds reviews now).contains f.id)).filterMap
          (fun f => (latestReviewFor reviews f.id).map (fun r =>
            ({ id := f.id, last_review := r.reviewed_at,
               due_date := r.next_review_at,
               last_confidence := r.confidence } : DueFlashcardEntry)))).map
        DueFlashcardEntry.id).Nodup := by
  intro fs
  induction fs with
  | nil => intro _; simp
  | cons f fs ih =>
      intro hnd
      rw [List.map_cons, List.nodup_cons] at hnd
      obtain ⟨hfid, hnd2⟩ := hnd
      rw [List.filter_cons]
      by_cases hq : ((dueFlashcardIds reviews now).contains f.id) = true
      · rw [if_pos hq, List.filterMap_cons]
        cases hg : (latestReviewFor reviews f.id).map (fun r =>
            ({ id := f.id, last_review := r.reviewed_at,
               due_date := r.next_review_at,
               last_confidence := r.confidence } : DueFlashcardEntry)) with
        | none => exact ih hnd2
        | some e =>
            rw [List.map_cons, List.nodup_cons]
            refine ⟨?_, ih hnd2⟩
            intro hmem
            obtain ⟨f2, hf2, hf2e⟩ := mem_due_entry_ids reviews _ e.id hmem
            obtain ⟨r, _, hre⟩ := Option.map_eq_some'.mp hg
            have heid : e.id = f.id := by rw [← hre]
            exact hfid (List.mem_map.mpr
              ⟨f2, List.mem_of_mem_filter hf2, by rw [hf2e, heid]⟩)
      · rw [if_neg hq]
        exact ih hnd2

/-- Helper: an id has an entry in the result of `get_due_flashcards` iff some
flashcard row carries it and it is among the due ids. -/
lemma mem_getDueFlashcards (reviews : List FlashcardReviewRecord)
    (flashcards : List FlashcardRow) (now : Int) (fid : String) :
    (∃ e ∈ getDueFlashcards reviews flashcards now, e.id = fid)
      ↔ (∃ f ∈ flashcards, f.id = fid)
          ∧ fid ∈ dueFlashcardIds reviews now := by
  unfold getDueFlashcards
  constructor
  · rintro ⟨e, he, hid⟩
    obtain ⟨f, hf, hfe⟩ := List.mem_filterMap.mp he
    obtain ⟨hfmem, hq⟩ := List.mem_filter.mp hf
    obtain ⟨r, _, hre⟩ := Option.map_eq_some'.mp hfe
    have heid : e.id = f.id := by rw [← hre]
    have hfid : f.id = fid := by rw [← heid, hid]
    refine ⟨⟨f, hfmem, hfid⟩, ?_⟩
    rw [← hfid]
    exact List.mem_of_elem_eq_true hq
  · rintro ⟨⟨f, hf, hfid⟩, hdue⟩
    obtain ⟨r, hfind, t, hnx, hle⟩ := (mem_dueFlashcardIds reviews now fid).mp hdue
    have hfind2 : latestReviewFor reviews f.id = some r := by rw [hfid]; exact hfind
    refine ⟨{ id := f.id, last_review := r.reviewed_at,
              due_date := r.next_review_at,
              last_confidence := r.confidence }, ?_, hfid⟩
    refine List.mem_filterMap.mpr ⟨f, ?_, ?_⟩
    · refine List.mem_filter.mpr ⟨hf, ?_⟩
      rw [hfid]
      exact List.elem_eq_true_of_mem hdue
    · rw [hfind2]
      rfl

/-- C7: `get_due_flashcards` returns exactly one entry per flashcard whose
latest review (by `reviewed_at`) for this learner has `next_review_at ≤ now`;
a flashcard whose latest record is not yet due never appears, even when an
older record for it has already passed, and flashcards with no record are
never due.  Hypotheses: the reviews are strictly ordered by `reviewed_at`
descending (the query order), the flashcard table has unique ids, and every
reviewed flashcard exists in the table. -/
theorem due_flashcards_latest_record_wins
    (reviews : List FlashcardReviewRecord) (flashcards : List FlashcardRow)
    (now : Int) (fid : String)
    (hsorted : reviews.Pairwise (fun a b => b.reviewed_at < a.reviewed_at))
    (hnodup : (flashcards.map FlashcardRow.id).Nodup)
    (hcover : ∀ r ∈ reviews, ∃ f ∈ flashcards, f.id = r.flashcard_id) :
    ((getDueFlashcards reviews flashcards now).map DueFlashcardEntry.id).Nodup
    ∧ ((∃ e ∈ getDueFlashcards reviews flashcards now, e.id = fid)
          ↔ ∃ r ∈ reviews, r.flashcard_id = fid
              ∧ (∀ r2 ∈ reviews, r2.flashcard_id = fid →
                  r2 = r ∨ r2.reviewed_at < r.reviewed_at)
              ∧ ∃ t, r.next_review_at = some t ∧ t ≤ now) := by
  constructor
  · exact nodup_due_entry_ids reviews now flashcards hnodup
  · rw [mem_getDueFlashcards, mem_dueFlashcardIds]
    constructor
    · rintro ⟨-, r, hfind, t, hnx, hle⟩
      obtain ⟨hrmem, hrid, hmax⟩ :=
        (latestReviewFor_eq_some reviews hsorted fid r).mp hfind
      exact ⟨r, hrmem, hrid, hmax, t, hnx, hle⟩
    · rintro ⟨r, hrmem, hrid, hmax, t, hnx, hle⟩
      have hfind := (latestReviewFor_eq_some reviews hsorted fid r).mpr
        ⟨hrmem, hrid, hmax⟩
      obtain ⟨f, hf, hfid⟩ := hcover r hrmem
      exact ⟨⟨f, hf, by rw [hfid, hrid]⟩, r, hfind, t, hnx, hle⟩

/-- Witness for C7: flashcard `"fw"` with a due latest review (`sampleNew`,
due day 6 ≤ day 7) and an older record (`sampleOld`). -/
theorem due_flashcards_latest_record_wins_witness :
    ((getDueFlashcards [sampleNew, sampleOld] [sampleRow] (7 * 86400)).map
        DueFlashcardEntry.id).Nodup
    ∧ ((∃ e ∈ getDueFlashcards [sampleNew, sampleOld] [sampleRow] (7 * 86400),
          e.id = "fw")
        ↔ ∃ r ∈ [sampleNew, sampleOld], r.flashcard_id = "fw"
            ∧ (∀ r2 ∈ [sampleNew, sampleOld], r2.flashcard_id = "fw" →
                r2 = r ∨ r2.reviewed_at < r.reviewed_at)
            ∧ ∃ t, r.next_review_at = some t ∧ t ≤ 7 * 86400) :=
  due_flashcards_latest_record_wins [sampleNew, sampleOld] [sampleRow]
    (7 * 86400) "fw" (by decide) (by decide) (by decide)

end StudyBuddy
